import Mathlib

/-!
Verification of the rsync-sidekick reconciliation engine.

This file embeds, as executable Lean definitions, the parts of the Go
source that the verified properties speak about:

* the data model (`entity.FileMeta`, `entity.FileDigest`, the action
  variants of package `action` with their `Uniqueness` and `UnixCommand`
  methods, and the `escape` helper),
* lexical path manipulation (`filepath.Clean`, `filepath.Join`,
  `filepath.Dir`, `filepath.Base` for slash-separated paths, as used by
  the engine),
* the fuzzy content digest (`service.fileHashWithFS`,
  `service.readCrucialBytesWithFS`, CRC-32/IEEE, lowercase hex),
* the per-side index builder (`service.buildIndex`),
* the worker-count computation (`service.getParallelism`),
* the matching phase of `service.ComputeSyncActionsWithFS`
  (candidate selection `PickBestCandidate`, the timestamp / move / copy
  emission with the shared uniqueness set and the savings counter), and
* `MoveFileAction.Perform` over a map-model filesystem.

Go maps are modelled as `String → Option _` functions (indexing a missing
key yields the zero value, modelled by `getD`).  Iteration over a Go map
(`SafeMap.ForEach`) has unspecified order, so the matcher takes the
enumeration of the orphan map as an explicit list argument.  File systems
are modelled by explicit lookup functions or association lists; injected
`FileSystem` handles carry no data and are dropped from the action values.
-/

/-- `entity.FileMeta`: size and modification timestamp (int64 in Go). -/
structure FileMeta where
  size : Int
  modifiedTimestamp : Int
deriving DecidableEq, Repr

/-- `entity.FileDigest`: extension, size and fuzzy hash. -/
structure FileDigest where
  fileExtension : String
  fileSize : Int
  fileFuzzyHash : String
deriving DecidableEq, Repr

/-- The Go zero value of `entity.FileDigest`, which is what `getDigest`
returns alongside a non-nil error. -/
def zeroFileDigest : FileDigest := ⟨"", 0, ""⟩

/-- Go map indexing `m[k]` for a `map[string]entity.FileMeta`: the zero
value when the key is absent. -/
def goMeta (m : String → Option FileMeta) (k : String) : FileMeta :=
  (m k).getD ⟨0, 0⟩

/-! ## Lexical path functions

The engine uses `filepath.Join`, `filepath.Dir` and `filepath.Base` on
slash-separated paths.  These embed the lexical algorithms of Go's
`path/filepath` for Unix separators. -/

/-- Split a character list at every slash (the groups between
separators, in order; empty groups for leading, trailing or doubled
slashes). -/
def splitOnSlash (cs : List Char) : List (List Char) :=
  match cs with
  | [] => [[]]
  | c :: rest =>
      match splitOnSlash rest with
      | [] => [[c]]
      | g :: gs => if c = '/' then [] :: g :: gs else (c :: g) :: gs

/-- Join character-list groups with slashes. -/
def intercalateSlash (gs : List (List Char)) : List Char :=
  match gs with
  | [] => []
  | [g] => g
  | g :: rest => g ++ '/' :: intercalateSlash rest

/-- One step of the element-stack pass of `filepath.Clean`: skip empty and
dot elements, resolve a dot-dot element against the stack (kept
reversed). -/
def cleanStep (rooted : Bool) (stack : List (List Char)) (part : List Char) : List (List Char) :=
  if part = [] ∨ part = ['.'] then stack
  else if part = ['.', '.'] then
    match stack with
    | [] => if rooted then [] else [['.', '.']]
    | top :: rest => if top = ['.', '.'] then ['.', '.'] :: top :: rest else rest
  else part :: stack

/-- `filepath.Clean` for slash-separated paths (Go's lexical algorithm:
drop empty and `.` elements, resolve `..`, keep leading `..` chains on
relative paths, return `.` or `/` when nothing remains). -/
def filepathClean (p : String) : String :=
  if p.data = [] then "."
  else
    let rooted := match p.data with | '/' :: _ => true | _ => false
    let stack := (splitOnSlash p.data).foldl (cleanStep rooted) []
    let body := intercalateSlash stack.reverse
    if rooted then (if body = [] then "/" else ⟨'/' :: body⟩)
    else (if body = [] then "." else ⟨body⟩)

/-- `filepath.Join(a, b)`: empty elements are skipped, the rest are joined
with a slash and cleaned; the all-empty join is the empty string. -/
def filepathJoin (a b : String) : String :=
  if a = "" then (if b = "" then "" else filepathClean b)
  else if b = "" then filepathClean a
  else filepathClean (a ++ "/" ++ b)

/-- `filepath.Dir`: everything up to and including the final slash, then
cleaned (`.` when there is no slash). -/
def filepathDir (p : String) : String :=
  filepathClean ⟨(p.data.reverse.dropWhile (fun c => c ≠ '/')).reverse⟩

/-- `filepath.Base`: last element of the path after dropping trailing
slashes; `.` for the empty path, `/` when the path is all slashes. -/
def filepathBase (p : String) : String :=
  if p = "" then "."
  else
    let r := p.data.reverse.dropWhile (fun c => c = '/')
    if r = [] then "/"
    else ⟨(r.takeWhile (fun c => c ≠ '/')).reverse⟩

/-! ## Action model (package `action`)

`SyncAction` is the tagged sum of the four action variants.  The injected
`FS` handle and the `time.Time` wrapper carry no data relevant to the
verified properties; modification times are kept as Unix seconds. -/

/-- The four `action.SyncAction` variants with their Go struct fields. -/
inductive SyncAction where
  | propagateTimestamp (sourceBaseDirPath destinationBaseDirPath : String)
      (sourceFileRelativePath destinationFileRelativePath : String)
      (sourceModTime : Int)
  | makeDirectory (absoluteDirPath : String)
  | moveFile (basePath relativeFromPath relativeToPath : String)
  | copyFile (absSourcePath absDestPath : String) (sourceModTime : Int) (useReflink : Bool)
deriving DecidableEq, Repr

/-- `action.cmdSeparator`: the byte U+0001, which cannot appear in a path. -/
def cmdSeparator : String := "\u0001"

/-- The `Uniqueness()` method of each action variant. -/
def SyncAction.uniquenessKey : SyncAction → String
  | .propagateTimestamp _ _ _ dstRel _ => "touch" ++ cmdSeparator ++ dstRel
  | .makeDirectory p => "Mkdir" ++ cmdSeparator ++ p
  | .moveFile _ relFrom _ => "mv" ++ cmdSeparator ++ relFrom
  | .copyFile _ absDest _ _ => "cp" ++ cmdSeparator ++ absDest

/-! ## Shell command serialization (`action.escape`, `UnixCommand`) -/

/-- `strings.ReplaceAll` specialised to a single-character pattern: each
occurrence of `old` becomes the character list `new`. -/
def goReplaceAllChar (s : String) (old : Char) (new : List Char) : String :=
  ⟨s.data.flatMap (fun c => if c = old then new else [c])⟩

/-- `action.escape`: five sequential `ReplaceAll` passes, backslash first. -/
def escape (path : String) : String :=
  let e1 := goReplaceAllChar path '\\' ['\\', '\\']
  let e2 := goReplaceAllChar e1 '"' ['\\', '"']
  let e3 := goReplaceAllChar e2 '!' ['\\', '!']
  let e4 := goReplaceAllChar e3 '`' ['\\', '`']
  goReplaceAllChar e4 '$' ['\\', '$']

/-- The `UnixCommand()` method of each action variant (the `%s` and `%d`
verbs of the Go format strings spelled out). -/
def SyncAction.unixCommand : SyncAction → String
  | .moveFile b f t =>
      "mv -v -n \"" ++ escape (filepathJoin b f) ++ "\" \"" ++ escape (filepathJoin b t) ++ "\""
  | .propagateTimestamp sb db sr dr _ =>
      "touch -r \"" ++ escape (filepathJoin sb sr) ++ "\" \"" ++ escape (filepathJoin db dr) ++ "\""
  | .makeDirectory p => "mkdir -p -v \"" ++ escape p ++ "\""
  | .copyFile s d mt rl =>
      (if rl then "cp -pv --reflink=auto \"" else "cp -pv \"") ++ escape s ++ "\" \"" ++ escape d
        ++ "\" && touch -d @" ++ toString mt ++ " \"" ++ escape d ++ "\""

/-- Specification-side escaping, written from the spec's words: a single
pass that puts a backslash before every backslash, double quote,
exclamation mark, backtick and dollar. -/
def escapeSpecChar (c : Char) : List Char :=
  if c ∈ ['\\', '"', '!', '`', '$'] then ['\\', c] else [c]

/-- Specification-side quoted path: the escaped path wrapped in double
quotes. -/
def quotedSpec (p : String) : String :=
  "\"" ++ (⟨p.data.flatMap escapeSpecChar⟩ : String) ++ "\""

/-! ## Fuzzy digest (`service/file_hash.go`) -/

/-- `service.thresholdFileSize` = 16 KiB. -/
def thresholdFileSize : Nat := 16 * 1024

/-- One bit step of the reflected CRC-32 division (polynomial
`0xEDB88320`, as in Go's `hash/crc32` IEEE table). -/
def crc32UpdateBit (c : Nat) : Nat :=
  if c % 2 = 1 then (c / 2) ^^^ 0xEDB88320 else c / 2

/-- Feed one byte into the CRC-32 state. -/
def crc32Byte (c b : Nat) : Nat := crc32UpdateBit^[8] (c ^^^ b)

/-- CRC-32/IEEE of a byte list: init `0xFFFFFFFF`, final xor
`0xFFFFFFFF` (the checksum computed by Go's `crc32.NewIEEE`). -/
def crc32 (bytes : List Nat) : Nat :=
  (bytes.foldl crc32Byte 0xFFFFFFFF) ^^^ 0xFFFFFFFF

/-- One lowercase hex digit (Go's `encoding/hex` hextable). -/
def hexDigit (n : Nat) : Char :=
  if n < 10 then Char.ofNat (48 + n) else Char.ofNat (87 + n)

/-- The sixteen lowercase hex characters (Go's `encoding/hex`
hextable). -/
def hexAlphabet : List Char := "0123456789abcdef".data

/-- Two lowercase hex digits of a byte. -/
def hexByte (b : Nat) : List Char := [hexDigit (b / 16), hexDigit (b % 16)]

/-- The four bytes appended by the crc32 digest's `Sum` (big-endian). -/
def crcSumBytes (c : Nat) : List Nat :=
  [c / 2 ^ 24 % 256, c / 2 ^ 16 % 256, c / 2 ^ 8 % 256, c % 256]

/-- `hex.EncodeToString(h.Sum(nil))`: eight lowercase hex digits of the
CRC-32 value. -/
def hexOfCrc (c : Nat) : String := ⟨(crcSumBytes c).flatMap hexByte⟩

/-- A file as seen through the `FileSystem` interface by the digest code:
its byte contents and whether `Lstat` reports a regular file.  `Lstat`
size is the length of the contents. -/
structure ModelFile where
  contents : List Nat
  regular : Bool

/-- `FileSystem.ReadAt` on a model file: read exactly `n` bytes from
`off`; a short read (an `io` error in Go) is `none`. -/
def readAtFile (f : ModelFile) (n off : Nat) : Option (List Nat) :=
  if off + n ≤ f.contents.length then some ((f.contents.drop off).take n) else none

/-- `service.readCrucialBytesWithFS`: first `threshold/2` bytes, then
`threshold/4` bytes from `size/2`, then `threshold/4` bytes from
`size - threshold/4`, concatenated in order. -/
def readCrucialBytesWithFS (f : ModelFile) : Option (List Nat) := do
  let firstBytes ← readAtFile f (thresholdFileSize / 2) 0
  let middleBytes ← readAtFile f (thresholdFileSize / 4) (f.contents.length / 2)
  let lastBytes ← readAtFile f (thresholdFileSize / 4) (f.contents.length - thresholdFileSize / 4)
  pure (firstBytes ++ middleBytes ++ lastBytes)

/-- `service.fileHashWithFS`: reject non-regular files; prefix `"f"` and
hash the whole contents when the size is at most the threshold, else
prefix `"s"` and hash the three crucial windows. -/
def fileHashWithFS (f : ModelFile) : Option String :=
  if f.regular = false then none
  else if f.contents.length ≤ thresholdFileSize then
    some ("f" ++ hexOfCrc (crc32 f.contents))
  else
    match readCrucialBytesWithFS f with
    | some bs => some ("s" ++ hexOfCrc (crc32 bs))
    | none => none

/-! ## `MoveFileAction.Perform` over a map-model filesystem -/

/-- A destination filesystem as a path → content association list
(contents abstracted to `Nat`).  `Stat` succeeds exactly on present
paths; an absent path is `ErrNotExist`. -/
abbrev FSMap := List (String × Nat)

/-- `os.Stat` success on the model filesystem. -/
def statSucceeds (fs : FSMap) (p : String) : Bool :=
  (List.lookup p fs).isSome

/-- `os.Rename` on the model filesystem: error when the old path is
absent, else the entry moves to the new path (the POSIX rename would
replace an existing new path). -/
def renameOS (fs : FSMap) (oldPath newPath : String) : FSMap × Option String :=
  match List.lookup oldPath fs with
  | none => (fs, some ("rename " ++ oldPath ++ ": no such file or directory"))
  | some v =>
      ((fs.filter (fun e => !(e.1 == oldPath) && !(e.1 == newPath))) ++ [(newPath, v)], none)

/-- `MoveFileAction.Perform`: stat the destination first and fail with
an `already exists` error when the stat succeeds; only otherwise rename.
Returns the filesystem after the action and the error, if any. -/
def movePerform (fs : FSMap) (basePath relativeFromPath relativeToPath : String) :
    FSMap × Option String :=
  let src := filepathJoin basePath relativeFromPath
  let dst := filepathJoin basePath relativeToPath
  if statSucceeds fs dst then
    (fs, some ("error: file \"" ++ dst ++ "\" already exists"))
  else renameOS fs src dst

/-! ## Index building (`service.buildIndex`) -/

/-- `service.indexBuildErrorCountTolerance`. -/
def indexBuildErrorCountTolerance : Nat := 20

/-- The recursive core of `service.buildIndex`: walk the files to scan,
computing each digest via `digestOf` applied to the joined path (`none`
models a digest error).  A digest error bumps the error count and, past
the tolerance, aborts the run; in every non-aborting iteration the file
is written to the file→digest map (function update, as a Go map `Set`)
and appended to the digest→files multimap list. -/
def buildIndexLoop (digestOf : String → Option FileDigest) (baseDirPath : String)
    (filesToScan : List String) (errCount : Nat)
    (filesToDigests : String → Option FileDigest)
    (digestsToFiles : FileDigest → List String) :
    Option ((String → Option FileDigest) × (FileDigest → List String)) :=
  match filesToScan with
  | [] => some (filesToDigests, digestsToFiles)
  | relativePath :: rest =>
      let digestRes := digestOf (filepathJoin baseDirPath relativePath)
      let errCount1 := if digestRes.isNone then errCount + 1 else errCount
      if errCount1 > indexBuildErrorCountTolerance then none
      else
        let digest := digestRes.getD zeroFileDigest
        buildIndexLoop digestOf baseDirPath rest errCount1
          (fun k => if k = relativePath then some digest else filesToDigests k)
          (fun d => if d = digest then digestsToFiles d ++ [relativePath] else digestsToFiles d)

/-- `service.buildIndex` with empty starting maps and error count zero. -/
def buildIndex (digestOf : String → Option FileDigest) (baseDirPath : String)
    (filesToScan : List String) :
    Option ((String → Option FileDigest) × (FileDigest → List String)) :=
  buildIndexLoop digestOf baseDirPath filesToScan 0 (fun _ => none) (fun _ => [])

/-! ## Worker counts (`service.getParallelism`) -/

/-- `service.getParallelism`: worker counts for the source and the
destination indexer as a function of `runtime.NumCPU()`. -/
def getParallelism (n : Nat) : Nat × Nat :=
  if n > 3 then
    if n % 2 = 0 then (n / 2 - 1, n / 2) else (n / 2, n / 2)
  else (1, 1)

/-! ## The matching phase of `service.ComputeSyncActionsWithFS`

The matcher reads: the two base paths, the two inventories, the
candidate digest→files multimap (built by `buildIndex` on the
destination side), the `IsReadableDirectory` capability of the injected
destination filesystem, and the `copyDuplicates` / `useReflink` flags.
The enumeration of `orphanFilesToDigests` produced by
`SafeMap.ForEach` (a Go map range, order unspecified) is an explicit
argument of the run. -/

/-- The inputs of the matching phase. -/
structure MatchEnv where
  sourceDirPath : String
  destinationDirPath : String
  sourceFiles : String → Option FileMeta
  destinationFiles : String → Option FileMeta
  candidateDigestsToFiles : FileDigest → Option (List String)
  isReadableDirectory : String → Bool
  copyDuplicates : Bool
  useReflink : Bool

/-- The mutable state of the matching loop: the emitted action list, the
uniqueness set, the used-candidates set (both hash sets, modelled as the
lists of added keys) and the savings counter. -/
structure MatchState where
  actions : List SyncAction
  uniqueness : List String
  usedCandidates : List String
  savings : Int
deriving Repr

/-- The initial matcher state. -/
def initialMatchState : MatchState := ⟨[], [], [], 0⟩

/-- The `uniqueness.Contains` guard around every append: append the
action and record its key only when the key is fresh, adding `saving`
to the savings counter exactly on a real append. -/
def appendFresh (s : MatchState) (a : SyncAction) (saving : Int) : MatchState :=
  if s.uniqueness.contains a.uniquenessKey then s
  else { s with
    actions := s.actions ++ [a]
    uniqueness := s.uniqueness ++ [a.uniquenessKey]
    savings := s.savings + saving }

/-- `service.PickBestCandidate`: drop used candidates; with nothing left
return `""`; with one candidate take it; otherwise prefer a same-basename
candidate absent from the source, then any candidate absent from the
source, and fall back to the first available one. -/
def pickBestCandidate (candidates : List String) (orphanPath : String)
    (sourceFiles : String → Option FileMeta) (usedCandidates : List String) : String :=
  let available := candidates.filter (fun c => !(usedCandidates.contains c))
  if available = [] then ""
  else if available.length = 1 then available.headD ""
  else
    let orphanBase := filepathBase orphanPath
    match available.find? (fun c => filepathBase c == orphanBase && (sourceFiles c).isNone) with
    | some c => c
    | none =>
        match available.find? (fun c => (sourceFiles c).isNone) with
        | some c => c
        | none => available.headD ""

/-- The timestamp-emission step for orphan `o` matched to candidate `c`:
emit `PropagateTimestampAction` when the modification timestamps differ
and it is not the case that `c` exists at source with metadata equal to
its destination metadata (the nested Go conditionals collapsed into one
conjunction); savings grow by the orphan's size on a fresh append. -/
def emitTimestamp (env : MatchEnv) (s : MatchState) (o c : String) : MatchState :=
  if (goMeta env.destinationFiles c).modifiedTimestamp
        ≠ (goMeta env.sourceFiles o).modifiedTimestamp
      ∧ ¬((env.sourceFiles c).isSome = true
            ∧ goMeta env.sourceFiles c = goMeta env.destinationFiles c) then
    appendFresh s
      (.propagateTimestamp env.sourceDirPath env.destinationDirPath o c
        (goMeta env.sourceFiles o).modifiedTimestamp)
      (goMeta env.sourceFiles o).size
  else s

/-- The move-emission step: mark `c` used, create the orphan's parent
directory at destination when it is not a readable directory, then emit
the move; savings grow by the orphan's size on a fresh move append. -/
def emitMove (env : MatchEnv) (s : MatchState) (o c : String) : MatchState :=
  let s1 := { s with usedCandidates := s.usedCandidates ++ [c] }
  let parentDir := filepathDir (filepathJoin env.destinationDirPath o)
  let s2 :=
    if env.isReadableDirectory parentDir = false then
      appendFresh s1 (.makeDirectory parentDir) 0
    else s1
  appendFresh s2 (.moveFile env.destinationDirPath c o) (goMeta env.sourceFiles o).size

/-- The copy-emission step (`copyDuplicates` mode): create the orphan's
parent directory at destination when needed, then emit the copy. -/
def emitCopy (env : MatchEnv) (s : MatchState) (o c : String) : MatchState :=
  let absSource := filepathJoin env.destinationDirPath c
  let absDest := filepathJoin env.destinationDirPath o
  let parentDir := filepathDir absDest
  let s1 :=
    if env.isReadableDirectory parentDir = false then
      appendFresh s (.makeDirectory parentDir) 0
    else s
  appendFresh s1
    (.copyFile absSource absDest (goMeta env.sourceFiles o).modifiedTimestamp env.useReflink)
    (goMeta env.sourceFiles o).size

/-- One iteration of the matching loop over an entry of the orphan
file→digest map: skip digests with no destination candidates, pick the
best candidate, then run the timestamp step and the move step (when the
candidate is absent from the source and differs from the orphan) or the
copy step (when `copyDuplicates` is set and the candidate also exists at
source). -/
def processOrphan (env : MatchEnv) (s : MatchState) (entry : String × FileDigest) :
    MatchState :=
  match env.candidateDigestsToFiles entry.2 with
  | none => s
  | some matchesAtDestination =>
      let o := entry.1
      let c := pickBestCandidate matchesAtDestination o env.sourceFiles s.usedCandidates
      if c = "" then s
      else
        let s1 := emitTimestamp env s o c
        if (env.sourceFiles c).isSome = false ∧ c ≠ o then emitMove env s1 o c
        else if env.copyDuplicates = true ∧ (env.sourceFiles c).isSome = true ∧ c ≠ o then
          emitCopy env s1 o c
        else s1

/-- The matching phase of `ComputeSyncActionsWithFS`: fold the loop body
over the given enumeration of the orphan file→digest map. -/
def computeSyncActionsWithFS (env : MatchEnv) (orphanEnum : List (String × FileDigest)) :
    MatchState :=
  orphanEnum.foldl (processOrphan env) initialMatchState

/-! ## Concrete inputs used by counterexamples and witnesses -/

/-- A digest shared by the two orphans of the order-dependence run. -/
def digestC1 : FileDigest := ⟨"", 1, "x"⟩

/-- Matcher inputs with two orphans `o1`, `o2` of equal digest and a
single destination candidate `c` carrying that digest. -/
def envC1 : MatchEnv where
  sourceDirPath := "s"
  destinationDirPath := "d"
  sourceFiles := fun k => List.lookup k [("o1", (⟨1, 10⟩ : FileMeta)), ("o2", ⟨1, 10⟩)]
  destinationFiles := fun k => List.lookup k [("c", (⟨1, 10⟩ : FileMeta))]
  candidateDigestsToFiles := fun dg => if dg = digestC1 then some ["c"] else none
  isReadableDirectory := fun _ => true
  copyDuplicates := false
  useReflink := false

/-- The digest of the single file of the rename-into-new-subdirectory
scenario. -/
def digestScenario2 : FileDigest := ⟨".txt", 3, "h"⟩

/-- Matcher inputs of the spec's scenario 2: source holds
`deep/newname.txt` (mtime 20), destination holds the identical
`oldname.txt` (mtime 10) and the directory `d/deep` does not exist. -/
def envScenario2 : MatchEnv where
  sourceDirPath := "s"
  destinationDirPath := "d"
  sourceFiles := fun k => List.lookup k [("deep/newname.txt", (⟨3, 20⟩ : FileMeta))]
  destinationFiles := fun k => List.lookup k [("oldname.txt", (⟨3, 10⟩ : FileMeta))]
  candidateDigestsToFiles := fun dg => if dg = digestScenario2 then some ["oldname.txt"] else none
  isReadableDirectory := fun _ => false
  copyDuplicates := false
  useReflink := false

/-- The orphan enumeration of the scenario-2 run. -/
def enumScenario2 : List (String × FileDigest) := [("deep/newname.txt", digestScenario2)]

/-- Projections of the emitted move actions used by the uniqueness
invariants: the `RelativeToPath` fields. -/
def moveTos (l : List SyncAction) : List String :=
  l.filterMap fun a => match a with | .moveFile _ _ t => some t | _ => none

/-- The `RelativeFromPath` fields of the emitted move actions. -/
def moveFroms (l : List SyncAction) : List String :=
  l.filterMap fun a => match a with | .moveFile _ f _ => some f | _ => none

/-- The parent directory a move action places its file into
(`Dir(Join(base, rel_to))`), `none` on the other variants. -/
def moveParent (a : SyncAction) : Option String :=
  match a with
  | .moveFile b _ t => some (filepathDir (filepathJoin b t))
  | _ => none

/-- The number of `PropagateTimestampAction`s in a list. -/
def countTS (l : List SyncAction) : Nat :=
  l.countP fun a => match a with | .propagateTimestamp .. => true | _ => false

/-- The number of `MoveFileAction`s in a list. -/
def countMV (l : List SyncAction) : Nat :=
  l.countP fun a => match a with | .moveFile .. => true | _ => false

/-! ## Theorems -/

/-- C9 counterexample: with 4 CPUs the code gives the source side one
worker and the destination side two, not `max 1 ⌊4/2⌋ = 2` on both
sides as the claim states. -/
theorem getParallelism_not_equal_sides_at_4 :
    getParallelism 4 ≠ (max 1 (4 / 2), max 1 (4 / 2)) := by decide

/-- C9 (amended): for more than 3 CPUs the destination-side indexer uses
`max 1 ⌊n/2⌋` slices while the source side uses that number when `n` is
odd and one less when `n` is even; with at most 3 CPUs each side uses
exactly one slice. -/
theorem getParallelism_slice_counts (n : Nat) :
    (3 < n →
      (getParallelism n).2 = max 1 (n / 2) ∧
      (getParallelism n).1 =
        (if n % 2 = 0 then max 1 (n / 2) - 1 else max 1 (n / 2))) ∧
    (n ≤ 3 → getParallelism n = (1, 1)) := by
  have hmax : 3 < n → max 1 (n / 2) = n / 2 := fun h => by
    rw [Nat.max_eq_right]; omega
  constructor
  · intro h
    rw [hmax h]
    unfold getParallelism
    rcases Nat.eq_zero_or_pos (n % 2) with h2 | h2
    · simp [h, h2]
    · have h2' : ¬(n % 2 = 0) := by omega
      simp [h, h2']
  · intro h
    unfold getParallelism
    have : ¬(n > 3) := by omega
    simp [this]

/-- Witness for the amended C9 statement at 4 and at 2 CPUs. -/
theorem getParallelism_slice_counts_witness :
    (getParallelism 4).2 = max 1 (4 / 2) ∧ getParallelism 2 = (1, 1) :=
  ⟨((getParallelism_slice_counts 4).1 (by decide)).1,
    (getParallelism_slice_counts 2).2 (by decide)⟩

/-- C3: evaluating `buildIndex` at a run whose single file fails to
digest (error count 1, below the tolerance of 20) shows the failed file
present in both indexes, keyed to the zero digest — the code lacks the
`continue` its own "skipping" log message promises. -/
theorem buildIndex_keeps_failed_file :
    (buildIndex (fun _ => none) "base" ["a"]).map
        (fun r => (r.1 "a", r.2 zeroFileDigest))
      = some (some zeroFileDigest, ["a"]) := by decide

/-- C2: when the destination path of a move already exists,
`MoveFileAction.Perform` returns the `already exists` error and the
filesystem — in particular the destination file — is unchanged. -/
theorem movePerform_no_overwrite (fs : FSMap) (b rf rt : String)
    (h : statSucceeds fs (filepathJoin b rt) = true) :
    movePerform fs b rf rt =
      (fs, some ("error: file \"" ++ filepathJoin b rt ++ "\" already exists")) := by
  unfold movePerform
  simp [h]

/-- Witness for C2: moving `y` onto the existing `x` under base `d`
fails and leaves the filesystem as it was. -/
theorem movePerform_no_overwrite_witness :
    movePerform [("d/x", 1)] "d" "y" "x" =
      ([("d/x", 1)], some ("error: file \"d/x\" already exists")) :=
  (movePerform_no_overwrite [("d/x", 1)] "d" "y" "x" (by decide)).trans (by decide)

/-- C1: two runs of the matcher on identical inputs — the same
inventories, candidate index and digests — but different (both valid)
enumerations of the orphan map return different action lists: the first
enumeration moves candidate `c` to `o1`, the second moves it to `o2`. -/
theorem computeSyncActions_order_dependent :
    List.Perm [("o1", digestC1), ("o2", digestC1)] [("o2", digestC1), ("o1", digestC1)] ∧
    (computeSyncActionsWithFS envC1 [("o1", digestC1), ("o2", digestC1)]).actions
      ≠ (computeSyncActionsWithFS envC1 [("o2", digestC1), ("o1", digestC1)]).actions := by
  constructor
  · decide
  · decide

/-- The five sequential `ReplaceAll` passes of `escape` (backslash pass
first) equal the single simultaneous pass that backslash-escapes each of
the five special characters. -/
theorem escape_eq_spec (p : String) : escape p = ⟨p.data.flatMap escapeSpecChar⟩ := by
  show (⟨(((((p.data.flatMap (fun c => if c = '\\' then ['\\', '\\'] else [c])).flatMap
      (fun c => if c = '"' then ['\\', '"'] else [c])).flatMap
      (fun c => if c = '!' then ['\\', '!'] else [c])).flatMap
      (fun c => if c = '`' then ['\\', '`'] else [c])).flatMap
      (fun c => if c = '$' then ['\\', '$'] else [c]))⟩ : String) = _
  apply congrArg
  simp only [List.flatMap_assoc]
  congr 1
  funext c
  by_cases h1 : c = '\\'
  · subst h1; rfl
  by_cases h2 : c = '"'
  · subst h2; rfl
  by_cases h3 : c = '!'
  · subst h3; rfl
  by_cases h4 : c = '`'
  · subst h4; rfl
  by_cases h5 : c = '$'
  · subst h5; rfl
  simp [h1, h2, h3, h4, h5, escapeSpecChar]

/-- C8: `UnixCommand` has the documented shape — `mv -v -n` for moves,
`touch -r` for timestamp propagation, `mkdir -p -v` for directory
creation — with both paths double-quoted and, per `quotedSpec`, every
backslash, double quote, backtick, dollar and exclamation mark in the
path backslash-escaped. -/
theorem unixCommand_documented_shape :
    (∀ b f t, (SyncAction.moveFile b f t).unixCommand =
        "mv -v -n " ++ quotedSpec (filepathJoin b f) ++ " " ++ quotedSpec (filepathJoin b t)) ∧
    (∀ sb db sr dr mt, (SyncAction.propagateTimestamp sb db sr dr mt).unixCommand =
        "touch -r " ++ quotedSpec (filepathJoin sb sr) ++ " " ++ quotedSpec (filepathJoin db dr)) ∧
    (∀ p, (SyncAction.makeDirectory p).unixCommand = "mkdir -p -v " ++ quotedSpec p) := by
  have d3 : ("\"" : String).data = ['"'] := rfl
  refine ⟨fun b f t => ?_, fun sb db sr dr mt => ?_, fun p => ?_⟩
  · have d1 : ("mv -v -n \"" : String).data = ("mv -v -n " : String).data ++ ['"'] := rfl
    have d2 : ("\" \"" : String).data = ['"'] ++ [' '] ++ ['"'] := rfl
    apply String.ext
    simp [SyncAction.unixCommand, quotedSpec, escape_eq_spec, String.data_append, d1, d2, d3]
  · have d1 : ("touch -r \"" : String).data = ("touch -r " : String).data ++ ['"'] := rfl
    have d2 : ("\" \"" : String).data = ['"'] ++ [' '] ++ ['"'] := rfl
    apply String.ext
    simp [SyncAction.unixCommand, quotedSpec, escape_eq_spec, String.data_append, d1, d2, d3]
  · have d1 : ("mkdir -p -v \"" : String).data = ("mkdir -p -v " : String).data ++ ['"'] := rfl
    apply String.ext
    simp [SyncAction.unixCommand, quotedSpec, escape_eq_spec, String.data_append, d1, d3]

/-- Two lowercase hex digits per byte, four bytes: the hex image of the
CRC-32 sum is always eight characters. -/
theorem hexOfCrc_length (c : Nat) : (hexOfCrc c).length = 8 := rfl

/-- Hex digits below 16 map into the lowercase hex alphabet. -/
theorem hexDigit_mem : ∀ d < 16,
    hexDigit d ∈ hexAlphabet := by decide

/-- Every character of the hex image of a CRC-32 sum is a lowercase hex
digit. -/
theorem hexOfCrc_mem (c : Nat) : ∀ ch ∈ (hexOfCrc c).data,
    ch ∈ hexAlphabet := by
  intro ch hch
  have hm : ch ∈ (crcSumBytes c).flatMap hexByte := hch
  rw [List.mem_flatMap] at hm
  obtain ⟨b, hb, hchb⟩ := hm
  have hb256 : b < 256 := by
    simp [crcSumBytes] at hb
    rcases hb with h | h | h | h <;> subst h <;> exact Nat.mod_lt _ (by norm_num)
  simp [hexByte] at hchb
  rcases hchb with h | h <;> subst h
  · exact hexDigit_mem _ (by omega)
  · exact hexDigit_mem _ (by omega)

/-- C4: for a regular file the fuzzy hash is `"f"` followed by the
lowercase 8-digit hex CRC-32/IEEE of the whole contents when the size is
at most 16384 bytes, and otherwise `"s"` followed by the CRC-32/IEEE of
the first 8192 bytes, the 4096 bytes from offset `size/2` and the 4096
bytes from offset `size - 4096`; in both cases the fuzzy string has
length exactly 9 and its digit part is lowercase hex. -/
theorem fileHash_fuzzy_spec (f : ModelFile) (hreg : f.regular = true) :
    (f.contents.length ≤ 16384 →
      fileHashWithFS f = some ("f" ++ hexOfCrc (crc32 f.contents))) ∧
    (16384 < f.contents.length →
      fileHashWithFS f = some ("s" ++ hexOfCrc (crc32
        (f.contents.take 8192
          ++ (f.contents.drop (f.contents.length / 2)).take 4096
          ++ (f.contents.drop (f.contents.length - 4096)).take 4096)))) ∧
    (∀ h, fileHashWithFS f = some h → h.length = 9 ∧
      ∀ ch ∈ h.data.tail,
        ch ∈ hexAlphabet) := by
  have ht : thresholdFileSize = 16384 := rfl
  have hsmall : f.contents.length ≤ 16384 →
      fileHashWithFS f = some ("f" ++ hexOfCrc (crc32 f.contents)) := by
    intro hlen
    unfold fileHashWithFS
    rw [hreg]
    simp [ht, hlen]
  have hbig : 16384 < f.contents.length →
      fileHashWithFS f = some ("s" ++ hexOfCrc (crc32
        (f.contents.take 8192
          ++ (f.contents.drop (f.contents.length / 2)).take 4096
          ++ (f.contents.drop (f.contents.length - 4096)).take 4096))) := by
    intro hlen
    have e1 : readAtFile f 8192 0 = some (f.contents.take 8192) := by
      unfold readAtFile
      rw [if_pos (by omega)]
      rw [List.drop_zero]
    have e2 : readAtFile f 4096 (f.contents.length / 2)
        = some ((f.contents.drop (f.contents.length / 2)).take 4096) := by
      unfold readAtFile
      rw [if_pos (by omega)]
    have e3 : readAtFile f 4096 (f.contents.length - 4096)
        = some ((f.contents.drop (f.contents.length - 4096)).take 4096) := by
      unfold readAtFile
      rw [if_pos (by omega)]
    have ecrucial : readCrucialBytesWithFS f
        = some (f.contents.take 8192
            ++ (f.contents.drop (f.contents.length / 2)).take 4096
            ++ (f.contents.drop (f.contents.length - 4096)).take 4096) := by
      unfold readCrucialBytesWithFS
      rw [ht]
      simp only [show (16384 : Nat) / 2 = 8192 from rfl, show (16384 : Nat) / 4 = 4096 from rfl]
      rw [e1, e2, e3]
      simp [List.append_assoc]
    unfold fileHashWithFS
    rw [hreg]
    simp only [Bool.true_eq_false, if_false, ite_false]
    rw [if_neg (by omega), ecrucial]
  have tailLemma : ∀ (pre s : String) (c : Char), pre.data = [c] → (pre ++ s).data.tail = s.data := by
    intro pre s c hc
    rw [String.data_append, hc]
    rfl
  refine ⟨hsmall, hbig, fun h hsome => ?_⟩
  by_cases hlen : f.contents.length ≤ 16384
  · rw [hsmall hlen] at hsome
    obtain rfl : _ = h := Option.some.inj hsome
    refine ⟨by rw [String.length_append, hexOfCrc_length]; rfl, fun ch hch => ?_⟩
    rw [tailLemma _ _ 'f' rfl] at hch
    exact hexOfCrc_mem _ ch hch
  · rw [hbig (by omega)] at hsome
    obtain rfl : _ = h := Option.some.inj hsome
    refine ⟨by rw [String.length_append, hexOfCrc_length]; rfl, fun ch hch => ?_⟩
    rw [tailLemma _ _ 's' rfl] at hch
    exact hexOfCrc_mem _ ch hch

set_option maxRecDepth 100000 in
/-- Witness for C4: the nine-byte ASCII file `123456789` hashes to the
standard CRC-32 check value `cbf43926` under the `"f"` prefix. -/
theorem fileHash_fuzzy_spec_witness :
    fileHashWithFS ⟨[49, 50, 51, 52, 53, 54, 55, 56, 57], true⟩ = some "fcbf43926" :=
  ((fileHash_fuzzy_spec ⟨[49, 50, 51, 52, 53, 54, 55, 56, 57], true⟩ rfl).1 (by decide)).trans
    (by decide)

/-- Case split on the uniqueness guard of `appendFresh`. -/
theorem appendFresh_cases (s : MatchState) (a : SyncAction) (v : Int) :
    (s.uniqueness.contains a.uniquenessKey = true ∧ appendFresh s a v = s) ∨
    (s.uniqueness.contains a.uniquenessKey = false ∧
      appendFresh s a v = { s with
        actions := s.actions ++ [a]
        uniqueness := s.uniqueness ++ [a.uniquenessKey]
        savings := s.savings + v }) := by
  unfold appendFresh
  by_cases h : s.uniqueness.contains a.uniquenessKey
  · left
    exact ⟨h, by rw [if_pos h]⟩
  · right
    refine ⟨by simpa using h, by rw [if_neg h]⟩

/-- Membership after `appendFresh`: the old actions or the new one. -/
theorem mem_appendFresh (s : MatchState) (a : SyncAction) (v : Int) (x : SyncAction)
    (h : x ∈ (appendFresh s a v).actions) : x ∈ s.actions ∨ x = a := by
  rcases appendFresh_cases s a v with ⟨_, he⟩ | ⟨_, he⟩
  · rw [he] at h
    exact Or.inl h
  · rw [he] at h
    simp only [List.mem_append, List.mem_singleton] at h
    exact h

/-- Actions after the timestamp step: the old ones, or the timestamp
action emitted under its guard. -/
theorem mem_emitTimestamp (env : MatchEnv) (s : MatchState) (o c : String) (x : SyncAction)
    (h : x ∈ (emitTimestamp env s o c).actions) :
    x ∈ s.actions ∨
      (x = SyncAction.propagateTimestamp env.sourceDirPath env.destinationDirPath o c
            (goMeta env.sourceFiles o).modifiedTimestamp ∧
        (goMeta env.destinationFiles c).modifiedTimestamp
            ≠ (goMeta env.sourceFiles o).modifiedTimestamp ∧
        ¬((env.sourceFiles c).isSome = true
            ∧ goMeta env.sourceFiles c = goMeta env.destinationFiles c)) := by
  unfold emitTimestamp at h
  split at h
  case isTrue hg =>
    rcases mem_appendFresh _ _ _ _ h with hx | hx
    · exact Or.inl hx
    · exact Or.inr ⟨hx, hg.1, hg.2⟩
  case isFalse => exact Or.inl h

/-- Actions after the move step: the old ones, a directory creation, or
the move itself. -/
theorem mem_emitMove (env : MatchEnv) (s : MatchState) (o c : String) (x : SyncAction)
    (h : x ∈ (emitMove env s o c).actions) :
    x ∈ s.actions ∨ (∃ p, x = SyncAction.makeDirectory p)
      ∨ x = SyncAction.moveFile env.destinationDirPath c o := by
  unfold emitMove at h
  rcases mem_appendFresh _ _ _ _ h with h2 | h2
  · split at h2
    · rcases mem_appendFresh _ _ _ _ h2 with h3 | h3
      · exact Or.inl h3
      · exact Or.inr (Or.inl ⟨_, h3⟩)
    · exact Or.inl h2
  · exact Or.inr (Or.inr h2)

/-- Actions after the copy step: the old ones, a directory creation, or
a copy. -/
theorem mem_emitCopy (env : MatchEnv) (s : MatchState) (o c : String) (x : SyncAction)
    (h : x ∈ (emitCopy env s o c).actions) :
    x ∈ s.actions ∨ (∃ p, x = SyncAction.makeDirectory p)
      ∨ (∃ a b m r, x = SyncAction.copyFile a b m r) := by
  unfold emitCopy at h
  rcases mem_appendFresh _ _ _ _ h with h2 | h2
  · split at h2
    · rcases mem_appendFresh _ _ _ _ h2 with h3 | h3
      · exact Or.inl h3
      · exact Or.inr (Or.inl ⟨_, h3⟩)
    · exact Or.inl h2
  · exact Or.inr (Or.inr ⟨_, _, _, _, h2⟩)

/-- Every timestamp action in a list respects the emission guard of the
matcher. -/
def TsOK (env : MatchEnv) (x : SyncAction) : Prop :=
  ∀ sb db srcRel dstRel mt, x = SyncAction.propagateTimestamp sb db srcRel dstRel mt →
    (goMeta env.destinationFiles dstRel).modifiedTimestamp
        ≠ (goMeta env.sourceFiles srcRel).modifiedTimestamp ∧
    ¬((env.sourceFiles dstRel).isSome = true
        ∧ goMeta env.sourceFiles dstRel = goMeta env.destinationFiles dstRel)

/-- One matcher iteration preserves the timestamp-guard invariant. -/
theorem processOrphan_ts_guard (env : MatchEnv) (s : MatchState) (e : String × FileDigest)
    (ih : ∀ x ∈ s.actions, TsOK env x) :
    ∀ x ∈ (processOrphan env s e).actions, TsOK env x := by
  intro x hx
  unfold processOrphan at hx
  rcases hm : env.candidateDigestsToFiles e.2 with _ | matches0
  · rw [hm] at hx
    dsimp only [] at hx
    exact ih x hx
  · rw [hm] at hx
    dsimp only [] at hx
    set c := pickBestCandidate matches0 e.1 env.sourceFiles s.usedCandidates with hc
    by_cases hce : c = ""
    · rw [if_pos hce] at hx
      exact ih x hx
    · rw [if_neg hce] at hx
      split at hx
      · -- move branch
        rcases mem_emitMove _ _ _ _ _ hx with h1 | ⟨p, rfl⟩ | rfl
        · rcases mem_emitTimestamp _ _ _ _ _ h1 with h2 | ⟨rfl, hg1, hg2⟩
          · exact ih x h2
          · intro sb db sr dr mt heq
            cases heq
            exact ⟨hg1, hg2⟩
        · intro sb db sr dr mt heq
          cases heq
        · intro sb db sr dr mt heq
          cases heq
      · split at hx
        · -- copy branch
          rcases mem_emitCopy _ _ _ _ _ hx with h1 | ⟨p, rfl⟩ | ⟨a, b, m, r, rfl⟩
          · rcases mem_emitTimestamp _ _ _ _ _ h1 with h2 | ⟨rfl, hg1, hg2⟩
            · exact ih x h2
            · intro sb db sr dr mt heq
              cases heq
              exact ⟨hg1, hg2⟩
          · intro sb db sr dr mt heq
            cases heq
          · intro sb db sr dr mt heq
            cases heq
        · rcases mem_emitTimestamp _ _ _ _ _ hx with h2 | ⟨rfl, hg1, hg2⟩
          · exact ih x h2
          · intro sb db sr dr mt heq
            cases heq
            exact ⟨hg1, hg2⟩

/-- The matcher fold preserves the timestamp-guard invariant. -/
theorem foldl_ts_guard (env : MatchEnv) (l : List (String × FileDigest)) :
    ∀ s : MatchState, (∀ x ∈ s.actions, TsOK env x) →
      ∀ x ∈ (l.foldl (processOrphan env) s).actions, TsOK env x := by
  induction l with
  | nil => intro s hs; simpa using hs
  | cons e rest ihl =>
      intro s hs
      exact ihl _ (processOrphan_ts_guard env s e hs)

/-- C5: a `PropagateTimestampAction` from orphan `srcRel` to candidate
`dstRel` is emitted only if the destination candidate's mtime differs
from the orphan's source mtime and it is not the case that the candidate
also exists at source with `FileMeta` equal to its destination
`FileMeta`; in particular no timestamp action ever targets a destination
file already equal to its own source counterpart. -/
theorem propagateTimestamp_guarded (env : MatchEnv) (orphanEnum : List (String × FileDigest))
    (sb db srcRel dstRel : String) (mt : Int)
    (hmem : SyncAction.propagateTimestamp sb db srcRel dstRel mt
        ∈ (computeSyncActionsWithFS env orphanEnum).actions) :
    (goMeta env.destinationFiles dstRel).modifiedTimestamp
        ≠ (goMeta env.sourceFiles srcRel).modifiedTimestamp ∧
    ¬((env.sourceFiles dstRel).isSome = true
        ∧ goMeta env.sourceFiles dstRel = goMeta env.destinationFiles dstRel) :=
  foldl_ts_guard env orphanEnum initialMatchState
    (by intro x hx; simp [initialMatchState] at hx) _ hmem sb db srcRel dstRel mt rfl

/-- Witness for C5: the scenario-2 run emits a timestamp action and the
guard holds for it. -/
theorem propagateTimestamp_guarded_witness :
    (goMeta envScenario2.destinationFiles "oldname.txt").modifiedTimestamp
        ≠ (goMeta envScenario2.sourceFiles "deep/newname.txt").modifiedTimestamp ∧
    ¬((envScenario2.sourceFiles "oldname.txt").isSome = true
        ∧ goMeta envScenario2.sourceFiles "oldname.txt"
            = goMeta envScenario2.destinationFiles "oldname.txt") :=
  propagateTimestamp_guarded envScenario2 enumScenario2 "s" "d" "deep/newname.txt" "oldname.txt"
    20 (by decide)

/-- Counting timestamp actions across an appended singleton. -/
theorem countTS_append_single (l : List SyncAction) (a : SyncAction) :
    countTS (l ++ [a]) = countTS l + countTS [a] := by
  simp [countTS, List.countP_append]

/-- Counting move actions across an appended singleton. -/
theorem countMV_append_single (l : List SyncAction) (a : SyncAction) :
    countMV (l ++ [a]) = countMV l + countMV [a] := by
  simp [countMV, List.countP_append]

/-- Action counts and savings across `appendFresh`. -/
theorem appendFresh_counts (s : MatchState) (a : SyncAction) (v : Int) :
    (appendFresh s a v = s) ∨
    (countTS (appendFresh s a v).actions = countTS s.actions + countTS [a] ∧
      countMV (appendFresh s a v).actions = countMV s.actions + countMV [a] ∧
      (appendFresh s a v).savings = s.savings + v) := by
  rcases appendFresh_cases s a v with ⟨_, he⟩ | ⟨_, he⟩
  · exact Or.inl he
  · right
    rw [he]
    exact ⟨countTS_append_single _ _, countMV_append_single _ _, rfl⟩

/-- The timestamp step either leaves the state unchanged or appends one
timestamp action and adds the orphan size to the savings. -/
theorem emitTimestamp_char (env : MatchEnv) (s : MatchState) (o c : String) :
    (emitTimestamp env s o c = s) ∨
    (countTS (emitTimestamp env s o c).actions = countTS s.actions + 1 ∧
      countMV (emitTimestamp env s o c).actions = countMV s.actions ∧
      (emitTimestamp env s o c).savings = s.savings + (goMeta env.sourceFiles o).size) := by
  unfold emitTimestamp
  split
  · rcases appendFresh_counts s
      (.propagateTimestamp env.sourceDirPath env.destinationDirPath o c
        (goMeta env.sourceFiles o).modifiedTimestamp)
      (goMeta env.sourceFiles o).size with he | ⟨h1, h2, h3⟩
    · exact Or.inl he
    · right
      refine ⟨?_, ?_, h3⟩
      · rw [h1]; rfl
      · rw [h2]; rfl
  · exact Or.inl rfl

/-- The move step never changes the timestamp count and either leaves
the move count and savings unchanged or appends one move and adds the
orphan size to the savings. -/
theorem emitMove_char (env : MatchEnv) (s : MatchState) (o c : String) :
    countTS (emitMove env s o c).actions = countTS s.actions ∧
    ((countMV (emitMove env s o c).actions = countMV s.actions ∧
        (emitMove env s o c).savings = s.savings) ∨
      (countMV (emitMove env s o c).actions = countMV s.actions + 1 ∧
        (emitMove env s o c).savings = s.savings + (goMeta env.sourceFiles o).size)) := by
  unfold emitMove
  dsimp only []
  set s1 : MatchState := { s with usedCandidates := s.usedCandidates ++ [c] } with hs1
  have b1 : s1.actions = s.actions := rfl
  have b2 : s1.savings = s.savings := rfl
  set parentDir := filepathDir (filepathJoin env.destinationDirPath o) with hp
  have key : ∀ s2 : MatchState,
      countTS s2.actions = countTS s.actions → countMV s2.actions = countMV s.actions →
      s2.savings = s.savings →
      countTS (appendFresh s2 (.moveFile env.destinationDirPath c o)
          (goMeta env.sourceFiles o).size).actions = countTS s.actions ∧
      ((countMV (appendFresh s2 (.moveFile env.destinationDirPath c o)
            (goMeta env.sourceFiles o).size).actions = countMV s.actions ∧
          (appendFresh s2 (.moveFile env.destinationDirPath c o)
            (goMeta env.sourceFiles o).size).savings = s.savings) ∨
        (countMV (appendFresh s2 (.moveFile env.destinationDirPath c o)
            (goMeta env.sourceFiles o).size).actions = countMV s.actions + 1 ∧
          (appendFresh s2 (.moveFile env.destinationDirPath c o)
            (goMeta env.sourceFiles o).size).savings
              = s.savings + (goMeta env.sourceFiles o).size)) := by
    intro s2 k1 k2 k3
    rcases appendFresh_counts s2 (.moveFile env.destinationDirPath c o)
        (goMeta env.sourceFiles o).size with he | ⟨h1, h2, h3⟩
    · rw [he]
      exact ⟨k1, Or.inl ⟨k2, k3⟩⟩
    · refine ⟨?_, Or.inr ⟨?_, ?_⟩⟩
      · rw [h1, k1]; rfl
      · rw [h2, k2]; rfl
      · rw [h3, k3]
  split
  · rcases appendFresh_counts s1 (.makeDirectory parentDir) 0 with he | ⟨h1, h2, h3⟩
    · rw [he]
      exact key s1 (by rw [b1]) (by rw [b1]) b2
    · refine key _ ?_ ?_ ?_
      · rw [h1, b1]; rfl
      · rw [h2, b1]; rfl
      · rw [h3, b2]; ring
  · exact key s1 (by rw [b1]) (by rw [b1]) b2

/-- The copy step changes neither the timestamp count nor the move
count. -/
theorem emitCopy_char (env : MatchEnv) (s : MatchState) (o c : String) :
    countTS (emitCopy env s o c).actions = countTS s.actions ∧
    countMV (emitCopy env s o c).actions = countMV s.actions := by
  unfold emitCopy
  dsimp only []
  have key : ∀ s2 : MatchState,
      countTS s2.actions = countTS s.actions → countMV s2.actions = countMV s.actions →
      countTS (appendFresh s2 (.copyFile (filepathJoin env.destinationDirPath c)
          (filepathJoin env.destinationDirPath o)
          (goMeta env.sourceFiles o).modifiedTimestamp env.useReflink)
          (goMeta env.sourceFiles o).size).actions = countTS s.actions ∧
      countMV (appendFresh s2 (.copyFile (filepathJoin env.destinationDirPath c)
          (filepathJoin env.destinationDirPath o)
          (goMeta env.sourceFiles o).modifiedTimestamp env.useReflink)
          (goMeta env.sourceFiles o).size).actions = countMV s.actions := by
    intro s2 k1 k2
    rcases appendFresh_counts s2 _ _ with he | ⟨h1, h2, _⟩
    · rw [he]
      exact ⟨k1, k2⟩
    · constructor
      · rw [h1, k1]; rfl
      · rw [h2, k2]; rfl
  split
  · rcases appendFresh_counts s (.makeDirectory
        (filepathDir (filepathJoin env.destinationDirPath o))) 0 with he | ⟨h1, h2, _⟩
    · rw [he]
      exact key s rfl rfl
    · refine key _ ?_ ?_
      · rw [h1]; rfl
      · rw [h2]; rfl
  · exact key s rfl rfl

/-- C10: when one matcher iteration freshly appends both a
`PropagateTimestampAction` and a `MoveFileAction` for the same orphan,
the savings counter grows by twice that orphan's file size — once at the
timestamp append and once at the move append — although only one
transfer is avoided. -/
theorem savings_double_counted (env : MatchEnv) (s : MatchState) (o : String) (d : FileDigest)
    (h1 : countTS (processOrphan env s (o, d)).actions = countTS s.actions + 1)
    (h2 : countMV (processOrphan env s (o, d)).actions = countMV s.actions + 1) :
    (processOrphan env s (o, d)).savings = s.savings + 2 * (goMeta env.sourceFiles o).size := by
  unfold processOrphan at h1 h2 ⊢
  dsimp only [] at h1 h2 ⊢
  rcases hm : env.candidateDigestsToFiles d with _ | matches0 <;>
    simp only [hm] at h1 h2 ⊢
  · omega
  · set c := pickBestCandidate matches0 o env.sourceFiles s.usedCandidates with hc
    by_cases hce : c = ""
    · rw [if_pos hce] at h1 h2 ⊢
      omega
    · rw [if_neg hce] at h1 h2 ⊢
      rcases emitTimestamp_char env s o c with he | ⟨e1, e2, e3⟩
      · rw [he] at h1 h2 ⊢
        split at h1 <;> rename_i hbr1
        · obtain ⟨mts, _⟩ := emitMove_char env s o c
          rw [if_pos hbr1] at h2 ⊢
          omega
        · rw [if_neg hbr1] at h2 ⊢
          split at h1 <;> rename_i hbr2
          · obtain ⟨cts, _⟩ := emitCopy_char env s o c
            rw [if_pos hbr2] at h2 ⊢
            omega
          · rw [if_neg hbr2] at h2 ⊢
            omega
      · split at h1 <;> rename_i hbr1
        · rw [if_pos hbr1] at h2 ⊢
          obtain ⟨mts, hmv⟩ := emitMove_char env (emitTimestamp env s o c) o c
          rcases hmv with ⟨m1, _⟩ | ⟨m1, m2⟩
          · rw [m1, e2] at h2
            omega
          · rw [m2, e3]
            ring
        · rw [if_neg hbr1] at h2 ⊢
          split at h1 <;> rename_i hbr2
          · rw [if_pos hbr2] at h2 ⊢
            obtain ⟨cts, cmv⟩ := emitCopy_char env (emitTimestamp env s o c) o c
            rw [cmv, e2] at h2
            omega
          · rw [if_neg hbr2] at h2 ⊢
            rw [e2] at h2
            omega

/-- Witness for C10: the scenario-2 iteration emits both actions and the
savings grow by `2 * 3`. -/
theorem savings_double_counted_witness :
    (processOrphan envScenario2 initialMatchState ("deep/newname.txt", digestScenario2)).savings
      = initialMatchState.savings
        + 2 * (goMeta envScenario2.sourceFiles "deep/newname.txt").size :=
  savings_double_counted envScenario2 initialMatchState "deep/newname.txt" digestScenario2
    (by decide) (by decide)

/-- `moveFroms` distributes over append. -/
theorem moveFroms_append (l1 l2 : List SyncAction) :
    moveFroms (l1 ++ l2) = moveFroms l1 ++ moveFroms l2 := by
  simp [moveFroms, List.filterMap_append]

/-- `moveTos` distributes over append. -/
theorem moveTos_append (l1 l2 : List SyncAction) :
    moveTos (l1 ++ l2) = moveTos l1 ++ moveTos l2 := by
  simp [moveTos, List.filterMap_append]

/-- A singleton move contributes its from-path. -/
theorem singletonFroms_move (b f t : String) :
    moveFroms [SyncAction.moveFile b f t] = [f] := rfl

/-- A singleton move contributes its to-path. -/
theorem singletonTos_move (b f t : String) :
    moveTos [SyncAction.moveFile b f t] = [t] := rfl

/-- The from-paths of the emitted moves are distinct and each is
recorded in the uniqueness set under the `mv` key. -/
def FromsInv (s : MatchState) : Prop :=
  (moveFroms s.actions).Nodup ∧
  ∀ f ∈ moveFroms s.actions, ("mv" ++ cmdSeparator ++ f) ∈ s.uniqueness

/-- A failed `contains` check means the element is absent. -/
theorem contains_false_notMem (l : List String) (a : String) (h : l.contains a = false) :
    a ∉ l := by
  intro hmem
  have : l.contains a = true := List.elem_eq_true_of_mem hmem
  rw [this] at h
  cases h

/-- `appendFresh` preserves the from-path invariant. -/
theorem appendFresh_froms (s : MatchState) (a : SyncAction) (v : Int) (hinv : FromsInv s) :
    FromsInv (appendFresh s a v) := by
  rcases appendFresh_cases s a v with ⟨_, he⟩ | ⟨hf, he⟩
  · rw [he]
    exact hinv
  · rw [he]
    obtain ⟨hnd, hkey⟩ := hinv
    cases a with
    | moveFile b f t =>
        constructor
        · rw [moveFroms_append, singletonFroms_move, List.nodup_append]
          refine ⟨hnd, List.nodup_singleton f, ?_⟩
          intro g hg hg2
          rw [List.mem_singleton] at hg2
          subst hg2
          exact contains_false_notMem _ _ hf (hkey g hg)
        · intro g hg
          rw [moveFroms_append, singletonFroms_move] at hg
          rcases List.mem_append.mp hg with hg | hg
          · exact List.mem_append_left _ (hkey g hg)
          · rw [List.mem_singleton] at hg
            subst hg
            exact List.mem_append_right _ (by simp [SyncAction.uniquenessKey])
    | propagateTimestamp sb db sr dr mt =>
        refine ⟨?_, fun g hg => ?_⟩
        · rw [moveFroms_append, show moveFroms [SyncAction.propagateTimestamp sb db sr dr mt]
              = [] from rfl, List.append_nil]
          exact hnd
        · rw [moveFroms_append, show moveFroms [SyncAction.propagateTimestamp sb db sr dr mt]
              = [] from rfl, List.append_nil] at hg
          exact List.mem_append_left _ (hkey g hg)
    | makeDirectory p =>
        refine ⟨?_, fun g hg => ?_⟩
        · rw [moveFroms_append, show moveFroms [SyncAction.makeDirectory p] = [] from rfl,
            List.append_nil]
          exact hnd
        · rw [moveFroms_append, show moveFroms [SyncAction.makeDirectory p] = [] from rfl,
            List.append_nil] at hg
          exact List.mem_append_left _ (hkey g hg)
    | copyFile x y m r =>
        refine ⟨?_, fun g hg => ?_⟩
        · rw [moveFroms_append, show moveFroms [SyncAction.copyFile x y m r] = [] from rfl,
            List.append_nil]
          exact hnd
        · rw [moveFroms_append, show moveFroms [SyncAction.copyFile x y m r] = [] from rfl,
            List.append_nil] at hg
          exact List.mem_append_left _ (hkey g hg)

/-- The timestamp step preserves the from-path invariant. -/
theorem emitTimestamp_froms (env : MatchEnv) (s : MatchState) (o c : String)
    (h : FromsInv s) : FromsInv (emitTimestamp env s o c) := by
  unfold emitTimestamp
  split
  · exact appendFresh_froms _ _ _ h
  · exact h

/-- The move step preserves the from-path invariant. -/
theorem emitMove_froms (env : MatchEnv) (s : MatchState) (o c : String)
    (h : FromsInv s) : FromsInv (emitMove env s o c) := by
  unfold emitMove
  dsimp only []
  apply appendFresh_froms
  split
  · exact appendFresh_froms _ _ _ h
  · exact h

/-- The copy step preserves the from-path invariant. -/
theorem emitCopy_froms (env : MatchEnv) (s : MatchState) (o c : String)
    (h : FromsInv s) : FromsInv (emitCopy env s o c) := by
  unfold emitCopy
  dsimp only []
  apply appendFresh_froms
  split
  · exact appendFresh_froms _ _ _ h
  · exact h

/-- One matcher iteration preserves the from-path invariant. -/
theorem processOrphan_froms (env : MatchEnv) (s : MatchState) (e : String × FileDigest)
    (h : FromsInv s) : FromsInv (processOrphan env s e) := by
  unfold processOrphan
  rcases hm : env.candidateDigestsToFiles e.2 with _ | matches0 <;> dsimp only []
  · exact h
  · split
    · exact h
    · split
      · exact emitMove_froms _ _ _ _ (emitTimestamp_froms _ _ _ _ h)
      · split
        · exact emitCopy_froms _ _ _ _ (emitTimestamp_froms _ _ _ _ h)
        · exact emitTimestamp_froms _ _ _ _ h

/-- The matcher fold preserves the from-path invariant. -/
theorem foldl_froms (env : MatchEnv) (l : List (String × FileDigest)) :
    ∀ s : MatchState, FromsInv s → FromsInv (l.foldl (processOrphan env) s) := by
  induction l with
  | nil => intro s h; simpa using h
  | cons e rest ih => intro s h; exact ih _ (processOrphan_froms env s e h)

/-- Appending a non-move action leaves the to-paths unchanged. -/
theorem moveTos_appendFresh_eq (s : MatchState) (a : SyncAction) (v : Int)
    (ha : moveTos [a] = []) :
    moveTos (appendFresh s a v).actions = moveTos s.actions := by
  rcases appendFresh_cases s a v with ⟨_, he⟩ | ⟨_, he⟩ <;> rw [he]
  show moveTos (s.actions ++ [a]) = moveTos s.actions
  rw [moveTos_append, ha, List.append_nil]

/-- The timestamp step leaves the to-paths unchanged. -/
theorem moveTos_emitTimestamp (env : MatchEnv) (s : MatchState) (o c : String) :
    moveTos (emitTimestamp env s o c).actions = moveTos s.actions := by
  unfold emitTimestamp
  split
  · exact moveTos_appendFresh_eq _ _ _ rfl
  · rfl

/-- The copy step leaves the to-paths unchanged. -/
theorem moveTos_emitCopy (env : MatchEnv) (s : MatchState) (o c : String) :
    moveTos (emitCopy env s o c).actions = moveTos s.actions := by
  unfold emitCopy
  dsimp only []
  rw [moveTos_appendFresh_eq _ (.copyFile (filepathJoin env.destinationDirPath c)
    (filepathJoin env.destinationDirPath o) (goMeta env.sourceFiles o).modifiedTimestamp
    env.useReflink) _ rfl]
  split
  · rw [moveTos_appendFresh_eq _ (.makeDirectory (filepathDir
      (filepathJoin env.destinationDirPath o))) _ rfl]
  · rfl

/-- The move step appends at most the orphan path to the to-paths. -/
theorem moveTos_emitMove (env : MatchEnv) (s : MatchState) (o c : String) :
    moveTos (emitMove env s o c).actions = moveTos s.actions ∨
    moveTos (emitMove env s o c).actions = moveTos s.actions ++ [o] := by
  unfold emitMove
  dsimp only []
  have hmid : ∀ s2 : MatchState, moveTos s2.actions = moveTos s.actions →
      moveTos (appendFresh s2 (.moveFile env.destinationDirPath c o)
          (goMeta env.sourceFiles o).size).actions = moveTos s.actions ∨
      moveTos (appendFresh s2 (.moveFile env.destinationDirPath c o)
          (goMeta env.sourceFiles o).size).actions = moveTos s.actions ++ [o] := by
    intro s2 h2
    rcases appendFresh_cases s2 (.moveFile env.destinationDirPath c o)
        (goMeta env.sourceFiles o).size with ⟨_, he⟩ | ⟨_, he⟩ <;> rw [he]
    · exact Or.inl h2
    · right
      show moveTos (s2.actions ++ [SyncAction.moveFile env.destinationDirPath c o])
          = moveTos s.actions ++ [o]
      rw [moveTos_append, singletonTos_move, h2]
  split
  · apply hmid
    rw [moveTos_appendFresh_eq _ (.makeDirectory (filepathDir
      (filepathJoin env.destinationDirPath o))) _ rfl]
  · exact hmid _ rfl

/-- One matcher iteration appends at most its orphan to the to-paths. -/
theorem moveTos_processOrphan (env : MatchEnv) (s : MatchState) (e : String × FileDigest) :
    moveTos (processOrphan env s e).actions = moveTos s.actions ∨
    moveTos (processOrphan env s e).actions = moveTos s.actions ++ [e.1] := by
  unfold processOrphan
  rcases hm : env.candidateDigestsToFiles e.2 with _ | matches0 <;> dsimp only []
  · exact Or.inl rfl
  · split
    · exact Or.inl rfl
    · split
      · rcases moveTos_emitMove env (emitTimestamp env s e.1
            (pickBestCandidate matches0 e.1 env.sourceFiles s.usedCandidates)) e.1
            (pickBestCandidate matches0 e.1 env.sourceFiles s.usedCandidates) with h | h
        · rw [moveTos_emitTimestamp] at h
          exact Or.inl h
        · rw [moveTos_emitTimestamp] at h
          exact Or.inr h
      · split
        · rw [moveTos_emitCopy, moveTos_emitTimestamp]
          exact Or.inl rfl
        · rw [moveTos_emitTimestamp]
          exact Or.inl rfl

/-- Folding the matcher over distinct orphan keys keeps the to-paths
distinct. -/
theorem foldl_tos_nodup (env : MatchEnv) (l : List (String × FileDigest)) :
    ∀ s : MatchState, (moveTos s.actions).Nodup →
      (∀ t ∈ moveTos s.actions, t ∉ l.map Prod.fst) →
      (l.map Prod.fst).Nodup →
      (moveTos (l.foldl (processOrphan env) s).actions).Nodup := by
  induction l with
  | nil => intro s h _ _; simpa using h
  | cons e rest ih =>
      intro s hnd hdisj hkeys
      rw [List.map_cons, List.nodup_cons] at hkeys
      simp only [List.foldl_cons]
      rcases moveTos_processOrphan env s e with hcase | hcase
      · apply ih
        · rw [hcase]
          exact hnd
        · intro t ht hc
          rw [hcase] at ht
          exact hdisj t ht (by rw [List.map_cons]; exact List.mem_cons_of_mem _ hc)
        · exact hkeys.2
      · apply ih
        · rw [hcase, List.nodup_append]
          refine ⟨hnd, List.nodup_singleton _, ?_⟩
          intro t ht ht2
          rw [List.mem_singleton] at ht2
          exact hdisj t ht (by rw [ht2, List.map_cons]; exact List.mem_cons_self _ _)
        · intro t ht hc
          rw [hcase] at ht
          rcases List.mem_append.mp ht with ht | ht
          · exact hdisj t ht (by rw [List.map_cons]; exact List.mem_cons_of_mem _ hc)
          · rw [List.mem_singleton] at ht
            subst ht
            exact hkeys.1 hc
        · exact hkeys.2

/-- C6: in every action list returned by the matcher over an enumeration
with distinct orphan keys — as any Go map enumeration has — no relative
path occurs as the `RelativeToPath` of more than one move and no
relative path occurs as the `RelativeFromPath` of more than one move. -/
theorem move_paths_unique (env : MatchEnv) (orphanEnum : List (String × FileDigest))
    (hkeys : (orphanEnum.map Prod.fst).Nodup) :
    (moveTos (computeSyncActionsWithFS env orphanEnum).actions).Nodup ∧
    (moveFroms (computeSyncActionsWithFS env orphanEnum).actions).Nodup := by
  constructor
  · exact foldl_tos_nodup env orphanEnum initialMatchState (by simp [initialMatchState, moveTos])
      (by simp [initialMatchState, moveTos]) hkeys
  · exact (foldl_froms env orphanEnum initialMatchState
      ⟨by simp [initialMatchState, moveFroms], by simp [initialMatchState, moveFroms]⟩).1

/-- Witness for C6 on the scenario-2 run. -/
theorem move_paths_unique_witness :
    (moveTos (computeSyncActionsWithFS envScenario2 enumScenario2).actions).Nodup ∧
    (moveFroms (computeSyncActionsWithFS envScenario2 enumScenario2).actions).Nodup :=
  move_paths_unique envScenario2 enumScenario2 (by decide)

/-- A successful `contains` check is membership. -/
theorem contains_true_iff_mem (l : List String) (a : String) :
    l.contains a = true ↔ a ∈ l :=
  ⟨fun h => List.mem_of_elem_eq_true h, fun h => List.elem_eq_true_of_mem h⟩

/-- The `Mkdir` uniqueness key determines the directory path. -/
theorem mkdirKey_inj (p q : String)
    (h : (SyncAction.makeDirectory p).uniquenessKey = (SyncAction.makeDirectory q).uniquenessKey) :
    p = q := by
  have h2 : ('M' :: 'k' :: 'd' :: 'i' :: 'r' :: '\u0001' :: p.data)
      = ('M' :: 'k' :: 'd' :: 'i' :: 'r' :: '\u0001' :: q.data) := congrArg String.data h
  simp only [List.cons.injEq, true_and] at h2
  exact String.ext h2

/-- A `Mkdir` key never collides with a `touch` key. -/
theorem mkdirKey_ne_ts (p sb db sr dr : String) (mt : Int) :
    (SyncAction.makeDirectory p).uniquenessKey
      ≠ (SyncAction.propagateTimestamp sb db sr dr mt).uniquenessKey := by
  intro h
  have h2 : ('M' :: 'k' :: 'd' :: 'i' :: 'r' :: '\u0001' :: p.data)
      = ('t' :: 'o' :: 'u' :: 'c' :: 'h' :: '\u0001' :: dr.data) := congrArg String.data h
  simp at h2

/-- A `Mkdir` key never collides with a `mv` key. -/
theorem mkdirKey_ne_mv (p b f t : String) :
    (SyncAction.makeDirectory p).uniquenessKey
      ≠ (SyncAction.moveFile b f t).uniquenessKey := by
  intro h
  have h2 : ('M' :: 'k' :: 'd' :: 'i' :: 'r' :: '\u0001' :: p.data)
      = ('m' :: 'v' :: '\u0001' :: f.data) := congrArg String.data h
  simp at h2

/-- A `Mkdir` key never collides with a `cp` key. -/
theorem mkdirKey_ne_cp (p x y : String) (m : Int) (r : Bool) :
    (SyncAction.makeDirectory p).uniquenessKey
      ≠ (SyncAction.copyFile x y m r).uniquenessKey := by
  intro h
  have h2 : ('M' :: 'k' :: 'd' :: 'i' :: 'r' :: '\u0001' :: p.data)
      = ('c' :: 'p' :: '\u0001' :: y.data) := congrArg String.data h
  simp at h2

/-- Decomposing a list with one appended element: the distinguished
position is the appended element or lies in the original list. -/
theorem actions_append_split (l : List SyncAction) (x : SyncAction)
    (l1 l2 : List SyncAction) (y : SyncAction) (h : l ++ [x] = l1 ++ y :: l2) :
    (l1 = l ∧ y = x ∧ l2 = []) ∨ ∃ l2p, l = l1 ++ y :: l2p ∧ l2 = l2p ++ [x] := by
  rcases List.eq_nil_or_concat l2 with rfl | ⟨l2p, z, hz⟩
  · left
    have := List.append_inj h (by have := congrArg List.length h; simp at this ⊢; omega)
    simp at this
    exact ⟨this.1.symm, this.2.symm, rfl⟩
  · right
    rw [List.concat_eq_append] at hz
    subst hz
    rw [show l1 ++ y :: (l2p ++ [z]) = (l1 ++ y :: l2p) ++ [z] by simp] at h
    have := List.append_inj h (by have := congrArg List.length h; simp at this ⊢; omega)
    have hx : z = x := by simpa using this.2.symm
    exact ⟨l2p, this.1, by rw [hx]⟩

/-- The ordering invariant of the matcher state: the emitted directory
creations coincide with the `Mkdir` keys of the uniqueness set, every
emitted move into a non-readable parent is preceded by that parent's
directory creation, and no move into a parent precedes the parent's
directory creation. -/
def MkdirInv (env : MatchEnv) (s : MatchState) : Prop :=
  (∀ P, SyncAction.makeDirectory P ∈ s.actions ↔
      (SyncAction.makeDirectory P).uniquenessKey ∈ s.uniqueness) ∧
  (∀ l1 a l2 P, s.actions = l1 ++ a :: l2 → moveParent a = some P →
      env.isReadableDirectory P = false → SyncAction.makeDirectory P ∈ l1) ∧
  (∀ l1 P l2, s.actions = l1 ++ SyncAction.makeDirectory P :: l2 →
      ∀ a ∈ l1, moveParent a ≠ some P)

/-- Appending a timestamp or copy action preserves the ordering
invariant. -/
theorem appendFresh_mkdirInv_other (env : MatchEnv) (s : MatchState) (a : SyncAction) (v : Int)
    (hnm : ∀ P, SyncAction.makeDirectory P ≠ a)
    (hnk : ∀ P, (SyncAction.makeDirectory P).uniquenessKey ≠ a.uniquenessKey)
    (hmp : moveParent a = none)
    (hinv : MkdirInv env s) : MkdirInv env (appendFresh s a v) := by
  rcases appendFresh_cases s a v with ⟨_, he⟩ | ⟨hf, he⟩
  · rw [he]
    exact hinv
  · rw [he]
    obtain ⟨i1, i2, i3⟩ := hinv
    refine ⟨fun P => ?_, fun l1 a2 l2 P hdec hmp2 hr => ?_, fun l1 P l2 hdec b hb => ?_⟩
    · show SyncAction.makeDirectory P ∈ s.actions ++ [a] ↔ _ ∈ s.uniqueness ++ [a.uniquenessKey]
      simp only [List.mem_append, List.mem_singleton]
      constructor
      · rintro (h | h)
        · exact Or.inl ((i1 P).mp h)
        · exact absurd h (hnm P)
      · rintro (h | h)
        · exact Or.inl ((i1 P).mpr h)
        · exact absurd h (hnk P)
    · rcases actions_append_split _ _ _ _ _ hdec with ⟨rfl, rfl, rfl⟩ | ⟨l2p, hl, _⟩
      · rw [hmp] at hmp2
        cases hmp2
      · exact i2 l1 a2 l2p P hl hmp2 hr
    · rcases actions_append_split _ _ _ _ _ hdec with ⟨rfl, hya, rfl⟩ | ⟨l2p, hl, _⟩
      · exact absurd hya (hnm P)
      · exact i3 l1 P l2p hl b hb

/-- Appending a directory creation for a non-readable parent preserves
the ordering invariant. -/
theorem appendFresh_mkdirInv_mkdir (env : MatchEnv) (s : MatchState) (P0 : String) (v : Int)
    (hr : env.isReadableDirectory P0 = false)
    (hinv : MkdirInv env s) : MkdirInv env (appendFresh s (.makeDirectory P0) v) := by
  rcases appendFresh_cases s (.makeDirectory P0) v with ⟨_, he⟩ | ⟨hf, he⟩
  · rw [he]
    exact hinv
  · rw [he]
    obtain ⟨i1, i2, i3⟩ := hinv
    have hfnot : (SyncAction.makeDirectory P0).uniquenessKey ∉ s.uniqueness :=
      contains_false_notMem _ _ hf
    refine ⟨fun Q => ?_, fun l1 a2 l2 Q hdec hmp2 hr2 => ?_, fun l1 Q l2 hdec b hb => ?_⟩
    · show SyncAction.makeDirectory Q ∈ s.actions ++ [SyncAction.makeDirectory P0] ↔ _
      simp only [List.mem_append, List.mem_singleton]
      constructor
      · rintro (h | h)
        · exact Or.inl ((i1 Q).mp h)
        · cases h
          exact Or.inr rfl
      · rintro (h | h)
        · exact Or.inl ((i1 Q).mpr h)
        · rw [mkdirKey_inj _ _ h]
          exact Or.inr rfl
    · rcases actions_append_split _ _ _ _ _ hdec with ⟨rfl, rfl, rfl⟩ | ⟨l2p, hl, _⟩
      · cases hmp2
      · exact i2 l1 a2 l2p Q hl hmp2 hr2
    · rcases actions_append_split _ _ _ _ _ hdec with ⟨rfl, hya, rfl⟩ | ⟨l2p, hl, _⟩
      · obtain rfl : Q = P0 := by cases hya; rfl
        intro hmp
        obtain ⟨x1, x2, hx⟩ := List.append_of_mem hb
        have hmk : SyncAction.makeDirectory Q ∈ x1 := i2 x1 b x2 Q hx hmp hr
        have hmem : SyncAction.makeDirectory Q ∈ s.actions := by
          rw [hx]
          exact List.mem_append_left _ hmk
        exact hfnot ((i1 Q).mp hmem)
      · exact i3 l1 Q l2p hl b hb

/-- Appending a move whose non-readable parent already has its directory
creation emitted preserves the ordering invariant. -/
theorem appendFresh_mkdirInv_move (env : MatchEnv) (s : MatchState) (v : Int) (c o : String)
    (hpre : env.isReadableDirectory (filepathDir (filepathJoin env.destinationDirPath o)) = false →
      SyncAction.makeDirectory (filepathDir (filepathJoin env.destinationDirPath o)) ∈ s.actions)
    (hinv : MkdirInv env s) :
    MkdirInv env (appendFresh s (.moveFile env.destinationDirPath c o) v) := by
  rcases appendFresh_cases s (.moveFile env.destinationDirPath c o) v with ⟨_, he⟩ | ⟨hf, he⟩
  · rw [he]
    exact hinv
  · rw [he]
    obtain ⟨i1, i2, i3⟩ := hinv
    refine ⟨fun Q => ?_, fun l1 a2 l2 Q hdec hmp2 hr2 => ?_, fun l1 Q l2 hdec b hb => ?_⟩
    · show SyncAction.makeDirectory Q ∈ s.actions ++ [SyncAction.moveFile _ c o] ↔ _
      simp only [List.mem_append, List.mem_singleton]
      constructor
      · rintro (h | h)
        · exact Or.inl ((i1 Q).mp h)
        · cases h
      · rintro (h | h)
        · exact Or.inl ((i1 Q).mpr h)
        · exact absurd h (mkdirKey_ne_mv Q _ c o)
    · rcases actions_append_split _ _ _ _ _ hdec with ⟨rfl, rfl, rfl⟩ | ⟨l2p, hl, _⟩
      · obtain rfl : Q = filepathDir (filepathJoin env.destinationDirPath o) := by
          have : some (filepathDir (filepathJoin env.destinationDirPath o)) = some Q := hmp2
          exact (Option.some.inj this).symm
        exact hpre hr2
      · exact i2 l1 a2 l2p Q hl hmp2 hr2
    · rcases actions_append_split _ _ _ _ _ hdec with ⟨rfl, hya, rfl⟩ | ⟨l2p, hl, _⟩
      · cases hya
      · exact i3 l1 Q l2p hl b hb

/-- The timestamp step preserves the ordering invariant. -/
theorem emitTimestamp_mkdirInv (env : MatchEnv) (s : MatchState) (o c : String)
    (h : MkdirInv env s) : MkdirInv env (emitTimestamp env s o c) := by
  unfold emitTimestamp
  split
  · exact appendFresh_mkdirInv_other env s _ _
      (fun P heq => by cases heq) (fun P => mkdirKey_ne_ts P _ _ _ _ _) rfl h
  · exact h

/-- The move step preserves the ordering invariant: the mkdir-ensure
sub-step runs before the move append. -/
theorem emitMove_mkdirInv (env : MatchEnv) (s : MatchState) (o c : String)
    (h : MkdirInv env s) : MkdirInv env (emitMove env s o c) := by
  unfold emitMove
  dsimp only []
  have h1 : MkdirInv env { s with usedCandidates := s.usedCandidates ++ [c] } := h
  split
  case isTrue hr =>
    apply appendFresh_mkdirInv_move
    · intro _
      rcases appendFresh_cases { s with usedCandidates := s.usedCandidates ++ [c] }
          (.makeDirectory (filepathDir (filepathJoin env.destinationDirPath o))) 0 with
        ⟨hcont, he⟩ | ⟨_, he⟩
      · rw [he]
        exact (h1.1 _).mpr ((contains_true_iff_mem _ _).mp hcont)
      · rw [he]
        exact List.mem_append_right _ (List.mem_singleton_self _)
    · exact appendFresh_mkdirInv_mkdir env _ _ 0 hr h1
  case isFalse hr =>
    apply appendFresh_mkdirInv_move
    · intro hr2
      exact absurd hr2 hr
    · exact h1

/-- The copy step preserves the ordering invariant. -/
theorem emitCopy_mkdirInv (env : MatchEnv) (s : MatchState) (o c : String)
    (h : MkdirInv env s) : MkdirInv env (emitCopy env s o c) := by
  unfold emitCopy
  dsimp only []
  have hother : ∀ s2 : MatchState, MkdirInv env s2 →
      MkdirInv env (appendFresh s2 (.copyFile (filepathJoin env.destinationDirPath c)
        (filepathJoin env.destinationDirPath o)
        (goMeta env.sourceFiles o).modifiedTimestamp env.useReflink)
        (goMeta env.sourceFiles o).size) := by
    intro s2 h2
    exact appendFresh_mkdirInv_other env s2 _ _
      (fun P heq => by cases heq) (fun P => mkdirKey_ne_cp P _ _ _ _) rfl h2
  split
  case isTrue hr => exact hother _ (appendFresh_mkdirInv_mkdir env s _ 0 hr h)
  case isFalse hr => exact hother _ h

/-- One matcher iteration preserves the ordering invariant. -/
theorem processOrphan_mkdirInv (env : MatchEnv) (s : MatchState) (e : String × FileDigest)
    (h : MkdirInv env s) : MkdirInv env (processOrphan env s e) := by
  unfold processOrphan
  rcases hm : env.candidateDigestsToFiles e.2 with _ | matches0 <;> dsimp only []
  · exact h
  · split
    · exact h
    · split
      · exact emitMove_mkdirInv _ _ _ _ (emitTimestamp_mkdirInv _ _ _ _ h)
      · split
        · exact emitCopy_mkdirInv _ _ _ _ (emitTimestamp_mkdirInv _ _ _ _ h)
        · exact emitTimestamp_mkdirInv _ _ _ _ h

/-- The matcher fold preserves the ordering invariant. -/
theorem foldl_mkdirInv (env : MatchEnv) (l : List (String × FileDigest)) :
    ∀ s : MatchState, MkdirInv env s → MkdirInv env (l.foldl (processOrphan env) s) := by
  induction l with
  | nil => intro s h; simpa using h
  | cons e rest ih => intro s h; exact ih _ (processOrphan_mkdirInv env s e h)

/-- C7: in every emitted action list, a `MakeDirectoryAction` for a
parent directory appears earlier than every `MoveFileAction` whose
destination path lies in that directory (no move into a directory
precedes the directory's creation action), and every move into a parent
that is not an existing readable directory is preceded in the list by
that parent's `MakeDirectoryAction`, which the loop appends immediately
upon deciding such a move. -/
theorem mkdir_precedes_moves (env : MatchEnv) (orphanEnum : List (String × FileDigest)) :
    (∀ l1 P l2, (computeSyncActionsWithFS env orphanEnum).actions
        = l1 ++ SyncAction.makeDirectory P :: l2 → ∀ a ∈ l1, moveParent a ≠ some P) ∧
    (∀ l1 a l2 P, (computeSyncActionsWithFS env orphanEnum).actions = l1 ++ a :: l2 →
        moveParent a = some P → env.isReadableDirectory P = false →
        SyncAction.makeDirectory P ∈ l1) := by
  have hinit : MkdirInv env initialMatchState := by
    refine ⟨fun P => ?_, fun l1 a l2 P hdec => ?_, fun l1 P l2 hdec => ?_⟩
    · simp [initialMatchState]
    · exact absurd hdec (by simp [initialMatchState])
    · exact absurd hdec (by simp [initialMatchState])
  obtain ⟨_, i2, i3⟩ := foldl_mkdirInv env orphanEnum initialMatchState hinit
  exact ⟨i3, i2⟩

/-- Witness for C7 on the scenario-2 run, whose emitted list is
timestamp, mkdir `d/deep`, move into `d/deep`. -/
theorem mkdir_precedes_moves_witness :
    (moveParent (SyncAction.propagateTimestamp "s" "d" "deep/newname.txt" "oldname.txt" 20)
        ≠ some "d/deep") ∧
    SyncAction.makeDirectory "d/deep"
      ∈ [SyncAction.propagateTimestamp "s" "d" "deep/newname.txt" "oldname.txt" 20,
          SyncAction.makeDirectory "d/deep"] := by
  constructor
  · exact (mkdir_precedes_moves envScenario2 enumScenario2).1
      [SyncAction.propagateTimestamp "s" "d" "deep/newname.txt" "oldname.txt" 20] "d/deep"
      [SyncAction.moveFile "d" "oldname.txt" "deep/newname.txt"] (by decide) _ (by decide)
  · exact (mkdir_precedes_moves envScenario2 enumScenario2).2
      [SyncAction.propagateTimestamp "s" "d" "deep/newname.txt" "oldname.txt" 20,
        SyncAction.makeDirectory "d/deep"]
      (SyncAction.moveFile "d" "oldname.txt" "deep/newname.txt") [] "d/deep"
      (by decide) (by decide) (by decide)
